import Mathlib

/-!
Verification of the c-VEP speller core (`speller.py` / `lsl_recorder.py`).

The Python source is shallowly embedded: the presentation loop `Speller.run`
becomes a pure function from an explicit speller state, a codes mapping, an
optional duration (durations are modelled as rationals; the source computes
with floats, and all concrete inputs used below are exactly representable) and
an abort oracle `q : Nat → Bool` (modelling `event.getKeys`-based polling in
`is_quit`) to a result carrying the event trace (display flips and marker
pushes), the final key registry and an outcome.  The recorder control client
`LSLRecorder` becomes pure functions returning the line written to the socket,
the settle delay and the returned flag.
-/

namespace CvepSpeller

/-- One `visual.ImageStim` of a key: its image path, position, size and
`autoDraw` flag (`speller.py` toggles `autoDraw` only on index 0). -/
structure ImageStim where
  image : String
  pos : Int × Int
  size : Int × Int
  autoDraw : Bool
deriving Repr, DecidableEq

/-- The `self.keys` registry: a Python dict (insertion ordered) from key name
to its list of image stimuli. -/
abbrev Keys := List (String × List ImageStim)

/-- Python-dict lookup on an insertion-ordered association list. -/
def lookupA {α : Type} : List (String × α) → String → Option α
  | [], _ => none
  | (k, v) :: rest, name => if k = name then some v else lookupA rest name

/-- An LSL marker sample: `push_sample` receives a list of strings. -/
abbrev Marker := List String

/-- The `marker` argument of `Speller.log`: a bare string or already a list. -/
inductive MarkerArg where
  | str (s : String)
  | list (l : List String)
deriving Repr, DecidableEq

/-- `if not isinstance(marker, list): marker = [marker]` in `Speller.log`. -/
def normalizeMarker : MarkerArg → Marker
  | .str s => [s]
  | .list l => l

/-- One observable event of a trial: a display flip (carrying the deferred
markers flushed by `callOnFlip` at that flip and the state index drawn for
each symbol this frame) or an immediate `push_sample`. -/
inductive Event where
  | flip (flushed : List Marker) (drawn : List (String × Nat))
  | push (m : Marker)
deriving Repr, DecidableEq

/-- The marker-emission state during a run: pending `callOnFlip` callbacks and
the events emitted so far. -/
structure Trace where
  pending : List Marker
  events : List Event
deriving Repr, DecidableEq

/-- `self.window.flip()`: emits a flip event, flushing the pending deferred
markers so that their emission coincides with this commit. -/
def Trace.flip (t : Trace) (drawn : List (String × Nat)) : Trace :=
  ⟨[], t.events ++ [Event.flip t.pending drawn]⟩

/-- `Speller.log(marker, on_flip)`: `None` is a no-op; otherwise the marker is
normalized to a single-element sample and either registered on the next flip
(`callOnFlip`) or pushed immediately. -/
def log (t : Trace) (marker : Option MarkerArg) (onFlip : Bool) : Trace :=
  match marker with
  | none => t
  | some m =>
    if onFlip then ⟨t.pending ++ [normalizeMarker m], t.events⟩
    else ⟨t.pending, t.events ++ [Event.push (normalizeMarker m)]⟩

/-- The exceptions `Speller.run` can raise while selecting frames:
`IndexError` on an empty codes dict, `KeyError` on an unregistered symbol,
`ZeroDivisionError` on `i % 0` for an empty code, `IndexError` on a state
index that is not `< N`. -/
inductive RunError where
  | noCodes
  | missingSymbol (name : String)
  | emptyCode (name : String)
  | invalidStateIndex (name : String) (idx : Nat)
deriving Repr, DecidableEq

/-- How `Speller.run` ends: a normal Python return (the source has no `return`
statement, so a completed run returns `None`, modelled `returned none`),
process termination through `Speller.quit` (which closes the window and calls
`core.quit()`), or an uncaught exception. -/
inductive RunOutcome where
  | returned (v : Option Int)
  | sysExit
  | error (e : RunError)
deriving Repr, DecidableEq

/-- `self.keys[name][int(code[i % len(code)])].draw()` for one symbol, in the
source's evaluation order: the dict lookup raises `KeyError` on an
unregistered name, `i % len(code)` raises `ZeroDivisionError` on an empty
code, and the state-index access raises `IndexError` when the index is not
`< N`. -/
def symSel (keys : Keys) (i : Nat) : String × List Nat → Except RunError (String × Nat)
  | (name, code) =>
    match lookupA keys name with
    | none => .error (.missingSymbol name)
    | some imgs =>
      match code with
      | [] => .error (.emptyCode name)
      | c0 :: cr =>
        if (c0 :: cr).getD (i % (c0 :: cr).length) 0 < imgs.length then
          .ok (name, (c0 :: cr).getD (i % (c0 :: cr).length) 0)
        else .error (.invalidStateIndex name ((c0 :: cr).getD (i % (c0 :: cr).length) 0))

/-- The drawing loop `for name, code in codes.items(): ...` of one frame:
either the selection `(name, state index)` for every symbol in dict order, or
the first exception raised. -/
def frameSel (keys : Keys) (codes : List (String × List Nat)) (i : Nat) :
    Except RunError (List (String × Nat)) :=
  match codes with
  | [] => .ok []
  | p :: rest =>
    match symSel keys i p with
    | .error e => .error e
    | .ok pi =>
      match frameSel keys rest i with
      | .ok sel => .ok (pi :: sel)
      | .error e => .error e

/-- `Bool`-valued test that `frameSel` raises no exception at frame `i`. -/
def selIsOk (keys : Keys) (codes : List (String × List Nat)) (i : Nat) : Bool :=
  match frameSel keys codes i with
  | .ok _ => true
  | .error _ => false

/-- The selection of frame `i` (meaningful when `selIsOk` holds). -/
def selOk (keys : Keys) (codes : List (String × List Nat)) (i : Nat) :
    List (String × Nat) :=
  match frameSel keys codes i with
  | .ok sel => sel
  | .error _ => []

/-- `key[0].setAutoDraw(b)`: set the `autoDraw` flag of the first stimulus. -/
def setHead (b : Bool) : List ImageStim → List ImageStim
  | [] => []
  | img :: rest => { img with autoDraw := b } :: rest

/-- `for key in self.keys.values(): key[0].setAutoDraw(b)`. -/
def setAutoDrawFirst (b : Bool) (keys : Keys) : Keys :=
  keys.map (fun p => (p.1, setHead b p.2))

/-- What a bare `self.window.flip()` shows: every stimulus whose `autoDraw`
flag is set, as `(name, state index)` pairs. -/
def autoDrawn (keys : Keys) : List (String × Nat) :=
  (keys.map (fun p => p.2.enum.filterMap
    (fun q => if q.2.autoDraw then some (p.1, q.1) else none))).flatten

/-- `int()` in Python truncates toward zero. -/
def ratTrunc (x : ℚ) : Int :=
  if 0 ≤ x then x.floor else x.ceil

/-- Lines 252–256 of `speller.py`: `n_frames = len(codes[list(codes.keys())[0]])`
when no duration is given (raising `IndexError` on an empty dict), else
`n_frames = int(duration * self.fr)`. -/
def nFrames (fr : Nat) (codes : List (String × List Nat)) :
    Option ℚ → Except RunError Nat
  | none =>
    match codes with
    | [] => .error .noCodes
    | (_, c) :: _ => .ok c.length
  | some d => .ok (ratTrunc (d * fr)).toNat

/-- The frame loop of `Speller.run` (lines 266–276): at every frame with
`i % 60 == 0` the abort input is polled (`is_quit`; oracle `q`); an abort
calls `Speller.quit` which terminates the process.  Otherwise the frame's
selections are drawn and the window flipped; a selection exception
propagates. -/
def runLoop (keys : Keys) (codes : List (String × List Nat)) (q : Nat → Bool) :
    Nat → Nat → Trace → Trace × Option RunOutcome
  | _, 0, t => (t, none)
  | i, fuel + 1, t =>
    if i % 60 = 0 ∧ q i = true then (t, some .sysExit)
    else
      match frameSel keys codes i with
      | .error e => (t, some (.error e))
      | .ok sel => runLoop keys codes q (i + 1) fuel (t.flip sel)

/-- The mutable state of a `Speller` that `run` touches: the key registry, the
configured frame rate `self.fr`, and any pending `callOnFlip` callbacks. -/
structure SpellerSt where
  keys : Keys
  fr : Nat
  pending : List Marker
deriving Repr, DecidableEq

/-- What a call to `Speller.run` produces: the key registry and pending
markers afterwards, the events emitted during the call, and the outcome. -/
structure RunResult where
  keys : Keys
  pending : List Marker
  events : List Event
  outcome : RunOutcome
deriving Repr, DecidableEq

/-- `Speller.run(codes, duration, start_marker, stop_marker)` (lines 235–284):
compute `n_frames`; suspend `autoDraw`; register the start marker deferred to
the next flip; run the frame loop; then push the stop marker immediately,
restore `autoDraw` and perform one final flip showing the default states. -/
def run (st : SpellerSt) (codes : List (String × List Nat)) (duration : Option ℚ)
    (startMarker stopMarker : Option MarkerArg) (q : Nat → Bool) : RunResult :=
  match nFrames st.fr codes duration with
  | .error e => ⟨st.keys, st.pending, [], .error e⟩
  | .ok n =>
    let keys1 := setAutoDrawFirst false st.keys
    let t0 := log ⟨st.pending, []⟩ startMarker true
    match runLoop keys1 codes q 0 n t0 with
    | (t, some out) => ⟨keys1, t.pending, t.events, out⟩
    | (t, none) =>
      let t1 := log t stopMarker false
      let keys2 := setAutoDrawFirst true keys1
      let t2 := t1.flip (autoDrawn keys2)
      ⟨keys2, t2.pending, t2.events, .returned none⟩

/-- Number of display commits (flips) in an event list. -/
def commits : List Event → Nat
  | [] => 0
  | Event.flip _ _ :: rest => commits rest + 1
  | Event.push _ :: rest => commits rest

/-- The pending deferred markers right after `self.log(start_marker, on_flip=True)`:
the previously pending ones followed by the normalized start marker, if any. -/
def startPend (pending : List Marker) : Option MarkerArg → List Marker
  | none => pending
  | some m => pending ++ [normalizeMarker m]

/-- The events of `self.log(stop_marker)`: one immediate push, if any. -/
def stopPushes : Option MarkerArg → List Event
  | none => []
  | some m => [Event.push (normalizeMarker m)]

/-- The flip events of `n` consecutive presented frames starting at frame
`i0`, when `pend` was pending before the first of them: the first flip
flushes `pend`, later flips flush nothing. -/
def presFlips (keys : Keys) (codes : List (String × List Nat)) (pend : List Marker)
    (i0 n : Nat) : List Event :=
  (List.range n).map
    (fun j => Event.flip (if j = 0 then pend else []) (selOk keys codes (i0 + j)))

/-- The errors `Speller.add_key` can raise: the duplicate-name assertion, or
the `IndexError` of `self.keys[name][0]` when `images` is empty. -/
inductive AddKeyError where
  | duplicateName
  | noImages
deriving Repr, DecidableEq

/-- Result of `Speller.add_key`: the registry afterwards and the exception
raised, if any. -/
structure AddKeyResult where
  keys : Keys
  err : Option AddKeyError
deriving Repr, DecidableEq

/-- `Speller.add_key(name, size, pos, images)` (lines 145–169): asserts the
name is unregistered (raising before any mutation otherwise), creates one
`ImageStim` per image (default images `black.png`/`white.png`), stores them
under `name`, and sets `autoDraw` on the first (default) stimulus. -/
def add_key (keys : Keys) (name : String) (size pos : Int × Int)
    (images : Option (List String)) : AddKeyResult :=
  if (lookupA keys name).isSome then ⟨keys, some .duplicateName⟩
  else
    let imgs := (images.getD ["black.png", "white.png"]).map
      (fun im => ImageStim.mk im pos size false)
    match imgs with
    | [] => ⟨keys ++ [(name, [])], some .noImages⟩
    | img :: rest => ⟨keys ++ [(name, { img with autoDraw := true } :: rest)], none⟩

end CvepSpeller

namespace LSLRecorder

/-- Python `"%x" % n` for a natural number: lowercase hex digits. -/
def natHex (n : Nat) : String :=
  (Nat.toDigits 16 n).asString

/-- Python `b"%x" % i` for an `int`: a minus sign followed by the hex digits
of the absolute value when negative. -/
def intHex (i : Int) : String :=
  if i < 0 then "-" ++ natHex i.natAbs else natHex i.natAbs

/-- Result of one `LSLRecorder` command: the lines written to the control
socket, the settle delay slept afterwards (seconds), and the returned flag. -/
structure CmdResult where
  sent : List String
  sleepSeconds : ℚ
  flag : Int
deriving Repr, DecidableEq

/-- The line built by `LSLRecorder.set_recorder` (lines 60–69): the `%b`/`%x`
interpolation of root, task, run, participant and session, in that order. -/
def filenameMsg (root subject session : String) (runId : Int) (task : String) :
    String :=
  "filename \x7broot:" ++ root ++ "\x7d \x7btask:" ++ task ++ "\x7d \x7brun:"
    ++ intHex runId ++ "\x7d \x7bparticipant:" ++ subject ++ "\x7d \x7bsession:"
    ++ session ++ "\x7d\n"

/-- `LSLRecorder.set_recorder` (lines 32–72): send the filename line, sleep 1
second, return 0. -/
def set_recorder (root subject session : String) (runId : Int) (task : String) :
    CmdResult :=
  ⟨[filenameMsg root subject session runId task], 1, 0⟩

/-- `LSLRecorder.update` (lines 74–85): send `update\n`, sleep 2 s, return 0. -/
def update : CmdResult :=
  ⟨["update\n"], 2, 0⟩

/-- `LSLRecorder.start` (lines 87–98): send `start\n`, sleep 5 s, return 0. -/
def start : CmdResult :=
  ⟨["start\n"], 5, 0⟩

/-- `LSLRecorder.stop` (lines 100–111): send `stop\n`, sleep 5 s, return 0. -/
def stop : CmdResult :=
  ⟨["stop\n"], 5, 0⟩

end LSLRecorder

namespace CvepSpeller

lemma setHead_length (b : Bool) (l : List ImageStim) : (setHead b l).length = l.length := by
  cases l <;> simp [setHead]

lemma lookupA_setAutoDrawFirst (b : Bool) (keys : Keys) (name : String) :
    lookupA (setAutoDrawFirst b keys) name = (lookupA keys name).map (setHead b) := by
  induction keys with
  | nil => simp [setAutoDrawFirst, lookupA]
  | cons p rest ih =>
    obtain ⟨k, v⟩ := p
    by_cases h : k = name <;> simp [setAutoDrawFirst, lookupA, h] <;>
      simpa [setAutoDrawFirst] using ih

lemma symSel_setAutoDrawFirst (b : Bool) (keys : Keys) (i : Nat) (p : String × List Nat) :
    symSel (setAutoDrawFirst b keys) i p = symSel keys i p := by
  obtain ⟨name, code⟩ := p
  simp only [symSel, lookupA_setAutoDrawFirst]
  cases lookupA keys name with
  | none => rfl
  | some imgs =>
    cases code with
    | nil => rfl
    | cons c0 cr => simp [setHead_length]

lemma frameSel_setAutoDrawFirst (b : Bool) (keys : Keys)
    (codes : List (String × List Nat)) (i : Nat) :
    frameSel (setAutoDrawFirst b keys) codes i = frameSel keys codes i := by
  induction codes with
  | nil => rfl
  | cons p rest ih => simp only [frameSel, symSel_setAutoDrawFirst, ih]

lemma selIsOk_setAutoDrawFirst (b : Bool) (keys : Keys)
    (codes : List (String × List Nat)) (i : Nat) :
    selIsOk (setAutoDrawFirst b keys) codes i = selIsOk keys codes i := by
  simp [selIsOk, frameSel_setAutoDrawFirst]

lemma selOk_setAutoDrawFirst (b : Bool) (keys : Keys)
    (codes : List (String × List Nat)) (i : Nat) :
    selOk (setAutoDrawFirst b keys) codes i = selOk keys codes i := by
  simp [selOk, frameSel_setAutoDrawFirst]

lemma presFlips_setAutoDrawFirst (b : Bool) (keys : Keys)
    (codes : List (String × List Nat)) (pend : List Marker) (i0 n : Nat) :
    presFlips (setAutoDrawFirst b keys) codes pend i0 n = presFlips keys codes pend i0 n := by
  simp [presFlips, selOk_setAutoDrawFirst]

lemma presFlips_succ (keys : Keys) (codes : List (String × List Nat))
    (pend : List Marker) (i0 k : Nat) :
    presFlips keys codes pend i0 (k + 1) =
      Event.flip pend (selOk keys codes i0) :: presFlips keys codes [] (i0 + 1) k := by
  simp only [presFlips, List.range_succ_eq_map, List.map_cons, List.map_map]
  refine List.cons_eq_cons.mpr ⟨by simp, ?_⟩
  apply List.map_congr_left
  intro a _
  simp only [Function.comp_apply]
  rw [if_neg (Nat.succ_ne_zero a), ite_self]
  simp only [Nat.succ_eq_add_one]
  rw [show i0 + (a + 1) = i0 + 1 + a from by omega]

lemma presFlips_length (keys : Keys) (codes : List (String × List Nat))
    (pend : List Marker) (i0 n : Nat) :
    (presFlips keys codes pend i0 n).length = n := by
  simp [presFlips]

lemma commits_append (a b : List Event) : commits (a ++ b) = commits a + commits b := by
  induction a with
  | nil => simp [commits]
  | cons e rest ih => cases e <;> simp [commits, ih] <;> omega

lemma commits_presFlips (keys : Keys) (codes : List (String × List Nat))
    (pend : List Marker) (i0 n : Nat) :
    commits (presFlips keys codes pend i0 n) = n := by
  induction n generalizing pend i0 with
  | zero => simp [presFlips, commits]
  | succ k ih => rw [presFlips_succ]; simp [commits, ih]

lemma presFlips_no_push (keys : Keys) (codes : List (String × List Nat))
    (pend : List Marker) (i0 n : Nat) (m : Marker) :
    Event.push m ∉ presFlips keys codes pend i0 n := by
  simp only [presFlips, List.mem_map]
  rintro ⟨j, -, h⟩
  exact Event.noConfusion h

lemma selOk_of_frameSel {keys : Keys} {codes : List (String × List Nat)} {i : Nat}
    {sel : List (String × Nat)} (h : frameSel keys codes i = .ok sel) :
    selOk keys codes i = sel := by
  simp [selOk, h]

lemma selIsOk_elim {keys : Keys} {codes : List (String × List Nat)} {i : Nat}
    (h : selIsOk keys codes i = true) :
    ∃ sel, frameSel keys codes i = .ok sel := by
  unfold selIsOk at h
  cases hfs : frameSel keys codes i with
  | ok sel => exact ⟨sel, rfl⟩
  | error e => rw [hfs] at h; cases h

lemma runLoop_advance (keys : Keys) (codes : List (String × List Nat)) (q : Nat → Bool)
    (k : Nat) :
    ∀ (i0 n : Nat) (t : Trace), k ≤ n →
    (∀ j, j < k → (i0 + j) % 60 = 0 → q (i0 + j) = false) →
    (∀ j, j < k → selIsOk keys codes (i0 + j) = true) →
    runLoop keys codes q i0 n t =
      runLoop keys codes q (i0 + k) (n - k)
        ⟨if k = 0 then t.pending else [], t.events ++ presFlips keys codes t.pending i0 k⟩ := by
  induction k with
  | zero =>
    intro i0 n t _ _ _
    obtain ⟨p, es⟩ := t
    simp [presFlips]
  | succ k ih =>
    intro i0 n t hk hq hs
    obtain ⟨n_, rfl⟩ : ∃ n_, n = n_ + 1 := ⟨n - 1, by omega⟩
    have hstep : runLoop keys codes q i0 (n_ + 1) t =
        runLoop keys codes q (i0 + 1) n_ (t.flip (selOk keys codes i0)) := by
      obtain ⟨sel, hsel⟩ := selIsOk_elim (by simpa using hs 0 (Nat.succ_pos k))
      rw [selOk_of_frameSel hsel]
      show (if i0 % 60 = 0 ∧ q i0 = true then _ else _) = _
      rw [if_neg]
      · rw [hsel]
      · rintro ⟨h60, hqt⟩
        have := hq 0 (Nat.succ_pos k) (by simpa using h60)
        simp at this
        rw [hqt] at this
        cases this
    rw [hstep, ih (i0 + 1) n_ (t.flip (selOk keys codes i0)) (by omega)
        (fun j hj hm => by
          have := hq (j + 1) (by omega) (by rw [show i0 + (j + 1) = i0 + 1 + j from by omega]; exact hm)
          rwa [show i0 + (j + 1) = i0 + 1 + j from by omega] at this)
        (fun j hj => by
          have := hs (j + 1) (by omega)
          rwa [show i0 + (j + 1) = i0 + 1 + j from by omega] at this)]
    rw [show i0 + 1 + k = i0 + (k + 1) from by omega,
        show n_ - k = n_ + 1 - (k + 1) from by omega]
    congr 1
    simp only [Trace.flip]
    refine congrArg₂ Trace.mk ?_ ?_
    · simp
    · rw [presFlips_succ, List.append_assoc]
      rfl

end CvepSpeller

namespace CvepSpeller

lemma runLoop_complete (keys : Keys) (codes : List (String × List Nat)) (q : Nat → Bool)
    (n : Nat) (t : Trace)
    (hq : ∀ j, j < n → j % 60 = 0 → q j = false)
    (hs : ∀ j, j < n → selIsOk keys codes j = true) :
    runLoop keys codes q 0 n t =
      (⟨if n = 0 then t.pending else [], t.events ++ presFlips keys codes t.pending 0 n⟩,
       none) := by
  rw [runLoop_advance keys codes q n 0 n t (le_refl n)
      (fun j hj hm => by simpa using hq j hj (by simpa using hm))
      (fun j hj => by simpa using hs j hj)]
  simp [runLoop]

lemma runLoop_abortAt (keys : Keys) (codes : List (String × List Nat)) (q : Nat → Bool)
    (n k : Nat) (t : Trace)
    (hk : k < n) (hk60 : k % 60 = 0) (hqk : q k = true)
    (hq : ∀ j, j < k → j % 60 = 0 → q j = false)
    (hs : ∀ j, j < k → selIsOk keys codes j = true) :
    runLoop keys codes q 0 n t =
      (⟨if k = 0 then t.pending else [], t.events ++ presFlips keys codes t.pending 0 k⟩,
       some .sysExit) := by
  rw [runLoop_advance keys codes q k 0 n t (le_of_lt hk)
      (fun j hj hm => by simpa using hq j hj (by simpa using hm))
      (fun j hj => by simpa using hs j hj)]
  obtain ⟨m, hm⟩ : ∃ m, n - k = m + 1 := ⟨n - k - 1, by omega⟩
  rw [hm]
  show (if (0 + k) % 60 = 0 ∧ q (0 + k) = true then _ else _) = _
  rw [if_pos (by simpa using ⟨hk60, hqk⟩)]

lemma runLoop_errorAt (keys : Keys) (codes : List (String × List Nat)) (q : Nat → Bool)
    (n k : Nat) (t : Trace) (e : RunError)
    (hk : k < n) (hqk : k % 60 = 0 → q k = false)
    (hq : ∀ j, j < k → j % 60 = 0 → q j = false)
    (hs : ∀ j, j < k → selIsOk keys codes j = true)
    (he : frameSel keys codes k = .error e) :
    runLoop keys codes q 0 n t =
      (⟨if k = 0 then t.pending else [], t.events ++ presFlips keys codes t.pending 0 k⟩,
       some (.error e)) := by
  rw [runLoop_advance keys codes q k 0 n t (le_of_lt hk)
      (fun j hj hm => by simpa using hq j hj (by simpa using hm))
      (fun j hj => by simpa using hs j hj)]
  obtain ⟨m, hm⟩ : ∃ m, n - k = m + 1 := ⟨n - k - 1, by omega⟩
  rw [hm]
  show (if (0 + k) % 60 = 0 ∧ q (0 + k) = true then _ else _) = _
  rw [if_neg, Nat.zero_add, he]
  rintro ⟨h60, hqt⟩
  rw [Nat.zero_add] at h60 hqt
  rw [hqk h60] at hqt
  cases hqt

lemma log_true_eq (p : List Marker) (es : List Event) (m : Option MarkerArg) :
    log ⟨p, es⟩ m true = ⟨startPend p m, es⟩ := by
  cases m <;> rfl

lemma log_false_eq (p : List Marker) (es : List Event) (m : Option MarkerArg) :
    log ⟨p, es⟩ m false = ⟨p, es ++ stopPushes m⟩ := by
  cases m <;> simp [log, startPend, stopPushes]

/-- The full trace of a completed run: `n` presentation flips (the first
carrying the deferred start marker), the immediate stop-marker push, and the
restorative final flip showing the `autoDraw` defaults. -/
lemma run_complete_eq (st : SpellerSt) (codes : List (String × List Nat)) (d : Option ℚ)
    (sM pM : Option MarkerArg) (q : Nat → Bool) (n : Nat)
    (hn : nFrames st.fr codes d = .ok n)
    (hq : ∀ j, j < n → j % 60 = 0 → q j = false)
    (hs : ∀ j, j < n → selIsOk st.keys codes j = true) :
    run st codes d sM pM q =
      ⟨setAutoDrawFirst true (setAutoDrawFirst false st.keys), [],
       presFlips st.keys codes (startPend st.pending sM) 0 n
         ++ stopPushes pM
         ++ [Event.flip (if n = 0 then startPend st.pending sM else [])
              (autoDrawn (setAutoDrawFirst true (setAutoDrawFirst false st.keys)))],
       .returned none⟩ := by
  unfold run
  rw [hn]
  simp only [log_true_eq]
  rw [runLoop_complete (setAutoDrawFirst false st.keys) codes q n ⟨startPend st.pending sM, []⟩
      hq (fun j hj => by rw [selIsOk_setAutoDrawFirst]; exact hs j hj)]
  simp only [log_false_eq, Trace.flip, presFlips_setAutoDrawFirst, List.nil_append]

/-- The full trace of an aborted run: the abort at polled frame `k`
short-circuits out of `run` (via `core.quit()`), leaving exactly the first
`k` presentation flips, no stop push and no restorative flip, with the
`autoDraw` flags still suspended. -/
lemma run_abort_eq (st : SpellerSt) (codes : List (String × List Nat)) (d : Option ℚ)
    (sM pM : Option MarkerArg) (q : Nat → Bool) (n k : Nat)
    (hn : nFrames st.fr codes d = .ok n)
    (hk : k < n) (hk60 : k % 60 = 0) (hqk : q k = true)
    (hq : ∀ j, j < k → j % 60 = 0 → q j = false)
    (hs : ∀ j, j < k → selIsOk st.keys codes j = true) :
    run st codes d sM pM q =
      ⟨setAutoDrawFirst false st.keys,
       if k = 0 then startPend st.pending sM else [],
       presFlips st.keys codes (startPend st.pending sM) 0 k,
       .sysExit⟩ := by
  unfold run
  rw [hn]
  simp only [log_true_eq]
  rw [runLoop_abortAt (setAutoDrawFirst false st.keys) codes q n k ⟨startPend st.pending sM, []⟩
      hk hk60 hqk hq (fun j hj => by rw [selIsOk_setAutoDrawFirst]; exact hs j hj)]
  simp [presFlips_setAutoDrawFirst]

/-- The full trace of a run stopped by a contract error at frame `k`: the
exception propagates out of `run` after exactly `k` presentation flips, with
no stop push, no restorative flip, and the `autoDraw` flags suspended. -/
lemma run_error_eq (st : SpellerSt) (codes : List (String × List Nat)) (d : Option ℚ)
    (sM pM : Option MarkerArg) (q : Nat → Bool) (n k : Nat) (e : RunError)
    (hn : nFrames st.fr codes d = .ok n)
    (hk : k < n) (hqk : k % 60 = 0 → q k = false)
    (hq : ∀ j, j < k → j % 60 = 0 → q j = false)
    (hs : ∀ j, j < k → selIsOk st.keys codes j = true)
    (he : frameSel st.keys codes k = .error e) :
    run st codes d sM pM q =
      ⟨setAutoDrawFirst false st.keys,
       if k = 0 then startPend st.pending sM else [],
       presFlips st.keys codes (startPend st.pending sM) 0 k,
       .error e⟩ := by
  unfold run
  rw [hn]
  simp only [log_true_eq]
  rw [runLoop_errorAt (setAutoDrawFirst false st.keys) codes q n k ⟨startPend st.pending sM, []⟩
      e hk hqk hq (fun j hj => by rw [selIsOk_setAutoDrawFirst]; exact hs j hj)
      (by rw [frameSel_setAutoDrawFirst]; exact he)]
  simp [presFlips_setAutoDrawFirst]

end CvepSpeller

namespace CvepSpeller

lemma symSel_ok_of_lookup {keys : Keys} {i : Nat} {s : String} {c : List Nat}
    {imgs : List ImageStim} (hki : lookupA keys s = some imgs) (hne : c ≠ [])
    (hlt : c.getD (i % c.length) 0 < imgs.length) :
    symSel keys i (s, c) = .ok (s, c.getD (i % c.length) 0) := by
  cases c with
  | nil => exact absurd rfl hne
  | cons c0 cr => simp only [symSel, hki, if_pos hlt]

lemma symSel_ok_inv {keys : Keys} {i : Nat} {name : String} {code : List Nat}
    {pi : String × Nat} (h : symSel keys i (name, code) = .ok pi) :
    pi = (name, code.getD (i % code.length) 0) := by
  cases code with
  | nil =>
    simp only [symSel] at h
    split at h <;> cases h
  | cons c0 cr =>
    simp only [symSel] at h
    split at h
    · cases h
    · split at h
      · injection h with h
        exact h.symm
      · cases h

lemma frameSel_mem {keys : Keys} {codes : List (String × List Nat)} {i : Nat}
    {sel : List (String × Nat)} {s : String} {c : List Nat}
    (hsel : frameSel keys codes i = .ok sel)
    (hc : lookupA codes s = some c) (hne : c ≠ []) :
    (s, c.getD (i % c.length) 0) ∈ sel := by
  induction codes generalizing sel with
  | nil => cases hc
  | cons p rest ih =>
    obtain ⟨name, code⟩ := p
    simp only [frameSel] at hsel
    cases hsym : symSel keys i (name, code) with
    | error e => rw [hsym] at hsel; cases hsel
    | ok pi =>
      rw [hsym] at hsel
      cases hrest : frameSel keys rest i with
      | error e => rw [hrest] at hsel; cases hsel
      | ok sel_ =>
        rw [hrest] at hsel
        injection hsel with hsel
        subst hsel
        simp only [lookupA] at hc
        by_cases hname : name = s
        · rw [if_pos hname] at hc
          injection hc with hc
          subst hname hc
          rw [symSel_ok_inv hsym]
          exact List.mem_cons_self _ _
        · rw [if_neg hname] at hc
          exact List.mem_cons_of_mem _ (ih hrest hc)

lemma presFlips_getElem (keys : Keys) (codes : List (String × List Nat))
    (pend : List Marker) (n i : Nat) (hi : i < n) :
    (presFlips keys codes pend 0 n)[i]? =
      some (Event.flip (if i = 0 then pend else []) (selOk keys codes i)) := by
  simp [presFlips, List.getElem?_range, hi]

lemma getElem_append_left_of_lt {l l_ : List Event} {i : Nat} (hi : i < l.length) :
    (l ++ l_)[i]? = l[i]? := by
  rw [List.getElem?_append, if_pos hi]

/-- Number of commits of a completed run trace: the `n` presentation flips
plus the one restorative flip; marker pushes are not commits. -/
lemma commits_full (keys : Keys) (codes : List (String × List Nat))
    (pend pend_ : List Marker) (pM : Option MarkerArg) (n : Nat)
    (drawn : List (String × Nat)) :
    commits (presFlips keys codes pend 0 n ++ stopPushes pM ++ [Event.flip pend_ drawn]) =
      n + 1 := by
  rw [commits_append, commits_append, commits_presFlips]
  cases pM <;> simp [stopPushes, commits]

/-- A well-formed registry, as established by `add_key`: every key has at
least one image stimulus, and only the first one can have `autoDraw` set. -/
def wellFormedKeys (keys : Keys) : Bool :=
  keys.all (fun p =>
    match p.2 with
    | [] => false
    | _ :: rest => rest.all (fun im => !im.autoDraw))

lemma enum_filterMap_tail_nil {name : String} {rest : List ImageStim} {j0 : Nat}
    (h : ∀ im ∈ rest, im.autoDraw = false) :
    (List.enumFrom j0 rest).filterMap
      (fun q => if q.2.autoDraw then some (name, q.1) else none) = [] := by
  induction rest generalizing j0 with
  | nil => rfl
  | cons im tl ih =>
    simp only [List.enumFrom, List.filterMap]
    rw [if_neg (by rw [h im (List.mem_cons_self im tl)]; exact Bool.false_ne_true)]
    exact ih (fun x hx => h x (List.mem_cons_of_mem _ hx))

/-- After restoring the `autoDraw` flags, the bare final flip of `run` shows
exactly state 0 of every registered key. -/
lemma autoDrawn_cons (p : String × List ImageStim) (rest : Keys) :
    autoDrawn (p :: rest) =
      (p.2.enum.filterMap
        (fun q => if q.2.autoDraw then some (p.1, q.1) else none)) ++ autoDrawn rest := by
  simp [autoDrawn]

/-- After restoring the `autoDraw` flags, the bare final flip of `run` shows
exactly state 0 of every registered key. -/
lemma autoDrawn_setTrue {keys : Keys} (hwf : wellFormedKeys keys = true) :
    autoDrawn (setAutoDrawFirst true keys) =
      (setAutoDrawFirst true keys).map (fun p => (p.1, 0)) := by
  induction keys with
  | nil => rfl
  | cons p rest ih =>
    obtain ⟨name, imgs⟩ := p
    simp only [wellFormedKeys, List.all_cons, Bool.and_eq_true] at hwf
    obtain ⟨hp, hrest⟩ := hwf
    cases imgs with
    | nil => cases hp
    | cons img tl =>
      have hstep : setAutoDrawFirst true ((name, img :: tl) :: rest) =
          (name, setHead true (img :: tl)) :: setAutoDrawFirst true rest := rfl
      rw [hstep, autoDrawn_cons, List.map_cons,
          ih (by simpa [wellFormedKeys] using hrest)]
      have hfirst : (setHead true (img :: tl)).enum.filterMap
          (fun q => if q.2.autoDraw then some (name, q.1) else none) = [(name, 0)] := by
        show (({ img with autoDraw := true } : ImageStim) :: tl).enum.filterMap _ = _
        rw [List.enum_cons, List.filterMap_cons,
            enum_filterMap_tail_nil (fun im him => by
              have := List.all_eq_true.mp hp im him
              simpa using this)]
        simp
      rw [hfirst]
      rfl

lemma lookupA_append_self {α : Type} (keys : List (String × α)) (name : String) (v : α)
    (h : lookupA keys name = none) :
    lookupA (keys ++ [(name, v)]) name = some v := by
  induction keys with
  | nil => simp [lookupA]
  | cons p rest ih =>
    obtain ⟨k, w⟩ := p
    simp only [lookupA] at h ⊢
    by_cases hk : k = name
    · rw [if_pos hk] at h; cases h
    · rw [if_neg hk] at h ⊢
      exact ih h

lemma lookupA_restore (keys : Keys) (name : String) :
    lookupA (setAutoDrawFirst true (setAutoDrawFirst false keys)) name =
      (lookupA keys name).map (fun imgs => setHead true (setHead false imgs)) := by
  rw [lookupA_setAutoDrawFirst, lookupA_setAutoDrawFirst]
  cases lookupA keys name <;> rfl

end CvepSpeller

namespace CvepSpeller

/-- A concrete image stimulus for witnesses. -/
def imgStim (im : String) (b : Bool) : ImageStim :=
  ⟨im, (0, 0), (10, 10), b⟩

/-- A concrete registry with two keys of three visual states each, as built by
`add_key` with the `black`/`white`/`green` images of `main`. -/
def exKeys : Keys :=
  [("A", [imgStim "A_black.png" true, imgStim "A_white.png" false, imgStim "A_green.png" false]),
   ("B", [imgStim "B_black.png" true, imgStim "B_white.png" false, imgStim "B_green.png" false])]

/-- A concrete speller at 60 Hz with nothing pending. -/
def exSt : SpellerSt :=
  ⟨exKeys, 60, []⟩

/-- The spec's example codes: symbol A flashes `[0,1]`, symbol B `[1,0,0]`. -/
def exCodes : List (String × List Nat) :=
  [("A", [0, 1]), ("B", [1, 0, 0])]

/-- The spec's example duration, 0.1 s (written as an explicit reduced
fraction so that it evaluates by kernel reduction). -/
def dTenth : ℚ :=
  ⟨1, 10, by decide, by decide⟩

lemma dTenth_eq : dTenth = 1 / 10 := by
  unfold dTenth
  rw [Rat.mk'_eq_divInt, Rat.divInt_eq_div]
  norm_num

/-- `ratTrunc` agrees with the floor on nonnegative arguments, i.e. Python
`int()` of a nonnegative value. -/
lemma ratTrunc_eq_floor {x : ℚ} (h : 0 ≤ x) : ratTrunc x = ⌊x⌋ := by
  rw [ratTrunc, if_pos h, Rat.floor_def', Rat.floor_def]

lemma nFrames_some_eval (fr : Nat) (codes : List (String × List Nat)) (d : ℚ) (m : Nat)
    (hpos : 0 ≤ d * (fr : ℚ)) (h : ⌊d * (fr : ℚ)⌋ = (m : Int)) :
    nFrames fr codes (some d) = .ok m := by
  show Except.ok (ratTrunc (d * (fr : ℚ))).toNat = _
  rw [ratTrunc_eq_floor hpos, h]
  simp

lemma nFrames_exSt_dTenth : nFrames exSt.fr exCodes (some dTenth) = .ok 6 := by
  refine nFrames_some_eval 60 exCodes dTenth 6 ?_ ?_ <;>
    rw [dTenth_eq] <;> push_cast <;> norm_num

/-- C1: for every codes mapping, every registered symbol `s` with code
sequence `c`, and every frame index `i` of a run that completes, the state
drawn for `s` on frame `i` is `c[i % len(c)]`, independently of the other
symbols' sequence lengths. -/
theorem run_symbol_state (st : SpellerSt) (codes : List (String × List Nat)) (d : Option ℚ)
    (sM pM : Option MarkerArg) (q : Nat → Bool) (s : String) (c : List Nat) (n i : Nat)
    (hn : nFrames st.fr codes d = .ok n)
    (hq : ∀ j, j < n → j % 60 = 0 → q j = false)
    (hs : ∀ j, j < n → selIsOk st.keys codes j = true)
    (hc : lookupA codes s = some c) (hne : c ≠ []) (hi : i < n) :
    ∃ fl sel, (run st codes d sM pM q).events[i]? = some (Event.flip fl sel) ∧
      (s, c.getD (i % c.length) 0) ∈ sel := by
  rw [run_complete_eq st codes d sM pM q n hn hq hs]
  refine ⟨if i = 0 then startPend st.pending sM else [], selOk st.keys codes i, ?_, ?_⟩
  · show (presFlips st.keys codes (startPend st.pending sM) 0 n ++ _ ++ _)[i]? = _
    rw [List.append_assoc,
        getElem_append_left_of_lt (by rw [presFlips_length]; exact hi),
        presFlips_getElem _ _ _ _ _ hi]
  · obtain ⟨sel, hsel⟩ := selIsOk_elim (hs i hi)
    rw [selOk_of_frameSel hsel]
    exact frameSel_mem hsel hc hne

/-- Witness for C1 on the spec's example scenario: 6 frames at 0.1 s × 60 Hz;
on frame 4, symbol B (code `[1,0,0]`) shows state `[1,0,0][4 % 3] = 0`. -/
theorem run_symbol_state_witness :
    ∃ fl sel,
      (run exSt exCodes (some dTenth) (some (.str "start_trial")) (some (.str "stop_trial"))
          (fun _ => false)).events[4]? = some (Event.flip fl sel) ∧
      ("B", 0) ∈ sel :=
  run_symbol_state exSt exCodes (some dTenth) (some (.str "start_trial"))
    (some (.str "stop_trial")) (fun _ => false) "B" [1, 0, 0] 6 4
    nFrames_exSt_dTenth (by decide) (by decide) (by decide) (by decide) (by decide)

end CvepSpeller

namespace CvepSpeller

/-- C2 (amended): with a duration `d`, the presentation loop performs exactly
`int(d × frameRate)` commits (truncation toward zero, not rounding) plus the
one restorative final commit, when not aborted; without a duration the frame
count is the length of the first symbol's code sequence. -/
theorem run_commit_count (st : SpellerSt) (codes : List (String × List Nat)) (d : Option ℚ)
    (sM pM : Option MarkerArg) (q : Nat → Bool) (n : Nat)
    (hn : nFrames st.fr codes d = .ok n)
    (hq : ∀ j, j < n → j % 60 = 0 → q j = false)
    (hs : ∀ j, j < n → selIsOk st.keys codes j = true) :
    commits (run st codes d sM pM q).events = n + 1 ∧
    (∀ dd, d = some dd → n = (ratTrunc (dd * (st.fr : ℚ))).toNat) ∧
    (d = none → ∀ p rest, codes = p :: rest → n = p.2.length) := by
  refine ⟨?_, ?_, ?_⟩
  · rw [run_complete_eq st codes d sM pM q n hn hq hs]
    exact commits_full st.keys codes (startPend st.pending sM) _ pM n _
  · rintro dd rfl
    simp only [nFrames] at hn
    injection hn with hn
    exact hn.symm
  · rintro rfl p rest rfl
    simp only [nFrames] at hn
    injection hn with hn
    exact hn.symm

/-- Witness for C2 (amended) at 0.1 s × 60 Hz on the example codes: 6 loop
commits plus the final restorative one. -/
theorem run_commit_count_witness :
    commits (run exSt exCodes (some dTenth) none none (fun _ => false)).events = 6 + 1 ∧
    (∀ dd, some dTenth = some dd → 6 = (ratTrunc (dd * (exSt.fr : ℚ))).toNat) ∧
    (some dTenth = none → ∀ p rest, exCodes = p :: rest → 6 = p.2.length) :=
  run_commit_count exSt exCodes (some dTenth) none none (fun _ => false) 6
    nFrames_exSt_dTenth (by decide) (by decide)

/-- A frame rate of 2 Hz, for the rounding counterexample. -/
def cSt : SpellerSt :=
  ⟨[("A", [imgStim "A_black.png" true, imgStim "A_white.png" false])], 2, []⟩

/-- A single symbol with the constant code `[0]`. -/
def cCodes : List (String × List Nat) :=
  [("A", [0])]

/-- A duration of 0.75 s (exactly representable in binary floating point, so
the Python float computation agrees with the rational one). -/
def cDur : ℚ :=
  ⟨3, 4, by decide, by decide⟩

lemma cDur_eq : cDur = 3 / 4 := by
  unfold cDur
  rw [Rat.mk'_eq_divInt, Rat.divInt_eq_div]
  norm_num

lemma nFrames_cSt_cDur : nFrames cSt.fr cCodes (some cDur) = .ok 1 := by
  refine nFrames_some_eval 2 cCodes cDur 1 ?_ ?_ <;>
    rw [cDur_eq] <;> push_cast <;> norm_num

/-- Counterexample to C2 as stated: at `duration = 0.75` and `frameRate = 2`
the loop performs `int(1.5) = 1` commit (2 commits in total with the
restorative one), not `round(1.5) = 2` as the claim requires. -/
theorem run_commit_count_cex :
    cDur = 3 / 4 ∧
    commits (run cSt cCodes (some cDur) none none (fun _ => false)).events ≠
      (round (cDur * (cSt.fr : ℚ))).toNat + 1 := by
  refine ⟨cDur_eq, ?_⟩
  have hrun : commits (run cSt cCodes (some cDur) none none (fun _ => false)).events = 2 := by
    rw [run_complete_eq cSt cCodes (some cDur) none none (fun _ => false) 1 nFrames_cSt_cDur
        (by decide) (by decide)]
    decide
  have hround : round (cDur * ((2 : ℕ) : ℚ)) = 2 := by
    rw [cDur_eq]
    push_cast
    rw [round_eq]
    norm_num
  rw [hrun, show ((cSt.fr : ℕ) : ℚ) = ((2 : ℕ) : ℚ) from rfl, hround]
  decide

/-- Counterexample to C3 as stated: an abort signalled at frame 0 makes `run`
terminate the process through `Speller.quit` / `core.quit()`; it does not
return status `1`. -/
theorem run_abort_status_cex :
    (run exSt exCodes none none none (fun _ => true)).outcome = .sysExit ∧
    (run exSt exCodes none none none (fun _ => true)).outcome ≠ .returned (some 1) := by
  decide

/-- C3 (amended): an abort signalled at polled frame `k` (`k % 60 == 0`)
stops the run after exactly `k` presentation commits, without presenting
frame `k` and without emitting the stop marker; but instead of returning
status `1`, `run` quits the program (window closed, `core.quit()`). -/
theorem run_abort_behavior (st : SpellerSt) (codes : List (String × List Nat)) (d : Option ℚ)
    (sM pM : Option MarkerArg) (q : Nat → Bool) (n k : Nat)
    (hn : nFrames st.fr codes d = .ok n)
    (hk : k < n) (hk60 : k % 60 = 0) (hqk : q k = true)
    (hq : ∀ j, j < k → j % 60 = 0 → q j = false)
    (hs : ∀ j, j < k → selIsOk st.keys codes j = true) :
    (run st codes d sM pM q).outcome = .sysExit ∧
    commits (run st codes d sM pM q).events = k ∧
    ∀ m, Event.push m ∉ (run st codes d sM pM q).events := by
  rw [run_abort_eq st codes d sM pM q n k hn hk hk60 hqk hq hs]
  exact ⟨rfl, commits_presFlips _ _ _ _ _,
    fun m => presFlips_no_push st.keys codes (startPend st.pending sM) 0 k m⟩

/-- Witness for C3 (amended): abort at the poll of frame 0 of a 2-frame run
gives zero commits, no push events, and the quit outcome. -/
theorem run_abort_behavior_witness :
    (run exSt exCodes none (some (.str "go")) (some (.str "halt"))
        (fun _ => true)).outcome = .sysExit ∧
    commits (run exSt exCodes none (some (.str "go")) (some (.str "halt"))
        (fun _ => true)).events = 0 ∧
    ∀ m, Event.push m ∉ (run exSt exCodes none (some (.str "go")) (some (.str "halt"))
        (fun _ => true)).events :=
  run_abort_behavior exSt exCodes none (some (.str "go")) (some (.str "halt"))
    (fun _ => true) 2 0 rfl (by decide) (by decide) (by decide)
    (by decide) (by decide)

end CvepSpeller

namespace CvepSpeller

lemma wellFormedKeys_setAutoDrawFirst (b : Bool) (keys : Keys) :
    wellFormedKeys (setAutoDrawFirst b keys) = wellFormedKeys keys := by
  induction keys with
  | nil => rfl
  | cons p rest ih =>
    obtain ⟨name, imgs⟩ := p
    cases imgs with
    | nil => simp [wellFormedKeys, setAutoDrawFirst, setHead]
    | cons img tl =>
      have h1 : setAutoDrawFirst b ((name, img :: tl) :: rest) =
          (name, { img with autoDraw := b } :: tl) :: setAutoDrawFirst b rest := rfl
      have h2 : ∀ (p : String × List ImageStim) (r : Keys),
          wellFormedKeys (p :: r) =
            ((match p.2 with
              | [] => false
              | _ :: tlr => tlr.all fun im => !im.autoDraw) && wellFormedKeys r) :=
        fun p r => rfl
      rw [h1, h2, h2, ih]

lemma lookupA_mem {α : Type} {keys : List (String × α)} {name : String} {v : α}
    (h : lookupA keys name = some v) : (name, v) ∈ keys := by
  induction keys with
  | nil => cases h
  | cons p rest ih =>
    obtain ⟨k, w⟩ := p
    simp only [lookupA] at h
    by_cases hk : k = name
    · rw [if_pos hk] at h
      injection h with h
      subst hk h
      exact List.mem_cons_self _ _
    · rw [if_neg hk] at h
      exact List.mem_cons_of_mem _ (ih h)

lemma wellFormed_imgs_ne_nil {keys : Keys} {name : String} {imgs : List ImageStim}
    (hwf : wellFormedKeys keys = true) (h : lookupA keys name = some imgs) :
    imgs ≠ [] := by
  have hmem := lookupA_mem h
  have := List.all_eq_true.mp hwf (name, imgs) hmem
  cases imgs with
  | nil => cases this
  | cons img tl => exact List.cons_ne_nil img tl

/-- Counterexample to C4 as stated: a run that completes all its frames
returns Python `None` (the function has no `return` statement), not
status `0`. -/
theorem run_complete_status_cex :
    (run exSt exCodes none none none (fun _ => false)).outcome = .returned none ∧
    (run exSt exCodes none none none (fun _ => false)).outcome ≠ .returned (some 0) := by
  decide

/-- C4 (amended): a run that completes all `n ≥ 1` frames without abort
emits the stop marker right after the last presentation commit, restores
every symbol's default-visible flag, performs exactly one final commit
showing every symbol's default state 0 — but it returns `None`, not
status `0`. -/
theorem run_complete_behavior (st : SpellerSt) (codes : List (String × List Nat)) (d : Option ℚ)
    (sM pM : Option MarkerArg) (q : Nat → Bool) (n : Nat)
    (hn : nFrames st.fr codes d = .ok n) (hn1 : 0 < n)
    (hq : ∀ j, j < n → j % 60 = 0 → q j = false)
    (hs : ∀ j, j < n → selIsOk st.keys codes j = true)
    (hwf : wellFormedKeys st.keys = true) :
    (run st codes d sM pM q).outcome = .returned none ∧
    (∀ m, pM = some m →
      (run st codes d sM pM q).events[n]? = some (Event.push (normalizeMarker m))) ∧
    commits (run st codes d sM pM q).events = n + 1 ∧
    (run st codes d sM pM q).events.getLast? =
      some (Event.flip []
        ((run st codes d sM pM q).keys.map (fun p => (p.1, 0)))) ∧
    (∀ name imgs, lookupA st.keys name = some imgs →
      ∃ imgs2, lookupA (run st codes d sM pM q).keys name = some imgs2 ∧
        imgs2.head?.map (fun im => im.autoDraw) = some true) := by
  rw [run_complete_eq st codes d sM pM q n hn hq hs]
  refine ⟨rfl, ?_, ?_, ?_, ?_⟩
  · rintro m rfl
    show (presFlips st.keys codes (startPend st.pending sM) 0 n ++ _ ++ _)[n]? = _
    rw [List.append_assoc, List.getElem?_append, presFlips_length, if_neg (lt_irrefl n)]
    simp [stopPushes]
  · exact commits_full st.keys codes (startPend st.pending sM) _ pM n _
  · show (presFlips st.keys codes (startPend st.pending sM) 0 n ++ stopPushes pM ++
        [Event.flip _ _]).getLast? = _
    rw [List.getLast?_concat]
    rw [if_neg (Nat.pos_iff_ne_zero.mp hn1)]
    have hwf2 : wellFormedKeys (setAutoDrawFirst false st.keys) = true := by
      rw [wellFormedKeys_setAutoDrawFirst]
      exact hwf
    rw [autoDrawn_setTrue hwf2]
  · intro name imgs h
    refine ⟨setHead true (setHead false imgs), ?_, ?_⟩
    · rw [lookupA_restore, h]
      rfl
    · have hne := wellFormed_imgs_ne_nil hwf h
      cases imgs with
      | nil => exact absurd rfl hne
      | cons img tl => rfl

/-- Witness for C4 (amended) on the example scenario, stop marker included. -/
theorem run_complete_behavior_witness :
    (run exSt exCodes none (some (.str "go")) (some (.str "halt"))
        (fun _ => false)).outcome = .returned none ∧
    (∀ m, (some (MarkerArg.str "halt") : Option MarkerArg) = some m →
      (run exSt exCodes none (some (.str "go")) (some (.str "halt"))
          (fun _ => false)).events[2]? = some (Event.push (normalizeMarker m))) ∧
    commits (run exSt exCodes none (some (.str "go")) (some (.str "halt"))
        (fun _ => false)).events = 2 + 1 ∧
    (run exSt exCodes none (some (.str "go")) (some (.str "halt"))
        (fun _ => false)).events.getLast? =
      some (Event.flip []
        ((run exSt exCodes none (some (.str "go")) (some (.str "halt"))
            (fun _ => false)).keys.map (fun p => (p.1, 0)))) ∧
    (∀ name imgs, lookupA exSt.keys name = some imgs →
      ∃ imgs2,
        lookupA (run exSt exCodes none (some (.str "go")) (some (.str "halt"))
            (fun _ => false)).keys name = some imgs2 ∧
        imgs2.head?.map (fun im => im.autoDraw) = some true) :=
  run_complete_behavior exSt exCodes none (some (.str "go")) (some (.str "halt"))
    (fun _ => false) 2 rfl (by decide) (by decide) (by decide) (by decide)

/-- A registry whose key `A` has only two visual states. -/
def c5St : SpellerSt :=
  ⟨[("A", [imgStim "A_black.png" true, imgStim "A_white.png" false])], 60, []⟩

/-- A code naming state 2, which is out of range for `c5St`, first used on
frame 2. -/
def c5Codes : List (String × List Nat) :=
  [("A", [0, 1, 2])]

/-- Counterexample to C5 as stated: the out-of-range state index `2` is only
detected when frame 2 first uses it, after 2 commits have already been
performed — not before any frame is drawn. -/
theorem run_error_commits_cex :
    (run c5St c5Codes none none none (fun _ => false)).outcome =
      .error (.invalidStateIndex "A" 2) ∧
    commits (run c5St c5Codes none none none (fun _ => false)).events ≠ 0 := by
  constructor
  · rfl
  · decide

/-- C5 (amended): an unregistered symbol or out-of-range state index raises a
contract error (an uncaught exception) at the first frame `k` whose selection
uses it, after exactly `k` commits; that is before any commit precisely when
`k = 0`, which always holds for an unregistered symbol. -/
theorem run_contract_error_timing (st : SpellerSt) (codes : List (String × List Nat))
    (d : Option ℚ) (sM pM : Option MarkerArg) (q : Nat → Bool) (n k : Nat) (e : RunError)
    (hn : nFrames st.fr codes d = .ok n) (hk : k < n)
    (hqk : k % 60 = 0 → q k = false)
    (hq : ∀ j, j < k → j % 60 = 0 → q j = false)
    (hs : ∀ j, j < k → selIsOk st.keys codes j = true)
    (he : frameSel st.keys codes k = .error e) :
    (run st codes d sM pM q).outcome = .error e ∧
    commits (run st codes d sM pM q).events = k := by
  rw [run_error_eq st codes d sM pM q n k e hn hk hqk hq hs he]
  exact ⟨rfl, commits_presFlips _ _ _ _ _⟩

/-- Witness for C5 (amended): the invalid index of `c5Codes` is first used on
frame 2, so the error arrives after exactly 2 commits. -/
theorem run_contract_error_timing_witness :
    (run c5St c5Codes none none none (fun _ => false)).outcome =
      .error (.invalidStateIndex "A" 2) ∧
    commits (run c5St c5Codes none none none (fun _ => false)).events = 2 :=
  run_contract_error_timing c5St c5Codes none none none (fun _ => false) 3 2
    (.invalidStateIndex "A" 2) rfl (by decide) (by decide) (by decide) (by decide) rfl

end CvepSpeller

namespace CvepSpeller

/-- C6: `add_key` on an already registered name fails with the
duplicate-identifier assertion and leaves the registry — in particular the
existing symbol's stimuli and their positions — unchanged; on a fresh name it
stores one stimulus per image, indexed in order, and marks state 0 as the
default visible state (`autoDraw`). -/
theorem add_key_contract (keys : Keys) (name : String) (size pos : Int × Int)
    (images : List String) :
    ((lookupA keys name).isSome = true →
      add_key keys name size pos (some images) = ⟨keys, some .duplicateName⟩) ∧
    (lookupA keys name = none → images ≠ [] →
      ∃ stims, (add_key keys name size pos (some images)).err = none ∧
        lookupA (add_key keys name size pos (some images)).keys name = some stims ∧
        stims.map (fun im => im.image) = images ∧
        stims.head?.map (fun im => im.autoDraw) = some true ∧
        ∀ im ∈ stims.tail, im.autoDraw = false) := by
  constructor
  · intro h
    rw [add_key, if_pos h]
  · intro h hne
    cases images with
    | nil => exact absurd rfl hne
    | cons im0 imrest =>
      rw [add_key, if_neg (by rw [h]; exact Bool.false_ne_true)]
      refine ⟨({ imgStim im0 true with pos := pos, size := size } ::
          imrest.map (fun im => ImageStim.mk im pos size false)), rfl, ?_, ?_, rfl, ?_⟩
      · exact lookupA_append_self keys name _ h
      · show im0 :: (imrest.map (fun im => ImageStim.mk im pos size false)).map
            (fun im => im.image) = im0 :: imrest
        rw [List.map_map,
            show ((fun (im : ImageStim) => im.image) ∘
                fun im => ImageStim.mk im pos size false) = id from rfl,
            List.map_id]
      · intro im him
        simp only [List.tail_cons, List.mem_map] at him
        obtain ⟨x, -, rfl⟩ := him
        rfl

/-- Witness for C6: re-adding `A` to the example registry fails without
mutation; adding a fresh `C` stores its three images with state 0 default. -/
theorem add_key_contract_witness :
    add_key exKeys "A" (12, 12) (3, 4) (some ["u.png", "v.png"]) =
      ⟨exKeys, some .duplicateName⟩ ∧
    ∃ stims,
      (add_key exKeys "C" (12, 12) (3, 4) (some ["x.png", "y.png", "z.png"])).err = none ∧
      lookupA (add_key exKeys "C" (12, 12) (3, 4)
          (some ["x.png", "y.png", "z.png"])).keys "C" = some stims ∧
      stims.map (fun im => im.image) = ["x.png", "y.png", "z.png"] ∧
      stims.head?.map (fun im => im.autoDraw) = some true ∧
      ∀ im ∈ stims.tail, im.autoDraw = false :=
  ⟨(add_key_contract exKeys "A" (12, 12) (3, 4) ["u.png", "v.png"]).1 (by decide),
   (add_key_contract exKeys "C" (12, 12) (3, 4) ["x.png", "y.png", "z.png"]).2
     (by decide) (by decide)⟩

/-- C7: the start marker, registered with `callOnFlip` before the loop, is
flushed exactly at the first commit of the trial, and the immediate stop
marker is emitted after (so no earlier than) the last presentation commit. -/
theorem run_marker_alignment (st : SpellerSt) (codes : List (String × List Nat)) (d : Option ℚ)
    (sm pm : MarkerArg) (q : Nat → Bool) (n : Nat)
    (hn : nFrames st.fr codes d = .ok n) (hn1 : 0 < n)
    (hq : ∀ j, j < n → j % 60 = 0 → q j = false)
    (hs : ∀ j, j < n → selIsOk st.keys codes j = true) :
    (∃ fl sel, (run st codes d (some sm) (some pm) q).events[0]? =
        some (Event.flip fl sel) ∧ normalizeMarker sm ∈ fl) ∧
    (run st codes d (some sm) (some pm) q).events[n]? =
      some (Event.push (normalizeMarker pm)) := by
  rw [run_complete_eq st codes d (some sm) (some pm) q n hn hq hs]
  constructor
  · refine ⟨startPend st.pending (some sm), selOk st.keys codes 0, ?_, ?_⟩
    · show (presFlips st.keys codes (startPend st.pending (some sm)) 0 n ++ _ ++ _)[0]? = _
      rw [List.append_assoc,
          getElem_append_left_of_lt (by rw [presFlips_length]; exact hn1),
          presFlips_getElem _ _ _ _ _ hn1, if_pos rfl]
    · simp [startPend]
  · show (presFlips st.keys codes (startPend st.pending (some sm)) 0 n ++ _ ++ _)[n]? = _
    rw [List.append_assoc, List.getElem?_append, presFlips_length, if_neg (lt_irrefl n)]
    simp [stopPushes]

/-- Witness for C7 on the example scenario (2 frames): the start marker is in
the flush list of commit 0, the stop push is event 2, right after the last
presentation commit. -/
theorem run_marker_alignment_witness :
    (∃ fl sel, (run exSt exCodes none (some (.str "go")) (some (.str "halt"))
        (fun _ => false)).events[0]? = some (Event.flip fl sel) ∧
        normalizeMarker (.str "go") ∈ fl) ∧
    (run exSt exCodes none (some (.str "go")) (some (.str "halt"))
        (fun _ => false)).events[2]? =
      some (Event.push (normalizeMarker (.str "halt"))) :=
  run_marker_alignment exSt exCodes none (.str "go") (.str "halt") (fun _ => false) 2
    rfl (by decide) (by decide) (by decide)

/-- C9: `Speller.log` with `marker = None` is a no-op in both timing modes:
nothing is pushed and no deferred callback is registered. -/
theorem log_none_noop (t : Trace) (onFlip : Bool) : log t none onFlip = t :=
  rfl

end CvepSpeller

namespace LSLRecorder

/-- C8: `set_recorder` sends exactly one line with the root, task, hex run,
participant (subject) and session fields in that order; on
`root="X", subject="01", session="02", run=3, task="cvep"` that line is
literally `filename {root:X} {task:cvep} {run:3} {participant:01} {session:02}\n`. -/
theorem set_recorder_line (root subject session : String) (runId : Int) (task : String) :
    (set_recorder root subject session runId task).sent =
      ["filename \x7broot:" ++ root ++ "\x7d \x7btask:" ++ task ++ "\x7d \x7brun:"
        ++ intHex runId ++ "\x7d \x7bparticipant:" ++ subject ++ "\x7d \x7bsession:"
        ++ session ++ "\x7d\n"] ∧
    (set_recorder "X" "01" "02" 3 "cvep").sent =
      ["filename \x7broot:X\x7d \x7btask:cvep\x7d \x7brun:3\x7d \x7bparticipant:01\x7d \x7bsession:02\x7d\n"] ∧
    intHex 255 = "ff" :=
  ⟨rfl, by decide, by decide⟩

/-- C10: `set_recorder`, `update`, `start` and `stop` all return the flag `0`
unconditionally once the socket write returns, so the caller can never see a
nonzero flag. -/
theorem recorder_flag_zero (root subject session : String) (runId : Int) (task : String) :
    (set_recorder root subject session runId task).flag = 0 ∧
    update.flag = 0 ∧ start.flag = 0 ∧ stop.flag = 0 :=
  ⟨rfl, rfl, rfl, rfl⟩

end LSLRecorder
